import Mathlib

/-!
Shallow embedding of the Snyk bulk-import pipeline
(`Searchgithub-importsnyk.go`): the data model, the import client, the
result-store upsert, the value-level pipeline of `main`, and a
small-step semantics for the worker/writer channel handoff.  All
definitions are translated from the Go source; the external
collaborators (database, HTTP endpoint, wall clock, rate limiter) enter
as explicit oracles in `Env`.
-/

namespace SnykImports

/-- `type Repository struct` (source lines 32-37). -/
structure Repository where
  id : Int
  owner : String
  name : String
  branch : String
deriving Repr, DecidableEq

/-- `type ImportResult struct` (source lines 50-58).  `error` is a Go
string whose zero value is the empty string; `importedAt` is an
abstract timestamp standing for `time.Time`. -/
structure ImportResult where
  repoID : Int
  owner : String
  name : String
  filePath : String
  success : Bool
  error : String
  importedAt : Nat
deriving Repr, DecidableEq

/-- Natural key of an outcome: `(owner, name, file_path)`. -/
def ImportResult.key (r : ImportResult) : String × String × String :=
  (r.owner, r.name, r.filePath)

/-- One row of the `snyk_imports` table (source lines 78-90).
`errorMessage` models the nullable SQL `TEXT` column, hence
`Option String`; `id` models the `SERIAL PRIMARY KEY`. -/
structure StoreRow where
  id : Nat
  repoId : Int
  repoOwner : String
  repoName : String
  filePath : String
  success : Bool
  errorMessage : Option String
  importedAt : Nat
deriving Repr, DecidableEq

/-- The `UNIQUE(repo_owner, repo_name, file_path)` key of a row. -/
def StoreRow.key (row : StoreRow) : String × String × String :=
  (row.repoOwner, row.repoName, row.filePath)

/-- The result store: the `snyk_imports` table contents plus the
`SERIAL` id sequence; `tableExists` records whether
`CREATE TABLE IF NOT EXISTS snyk_imports` has taken effect. -/
structure Store where
  tableExists : Bool
  rows : List StoreRow
  nextId : Nat
deriving Repr, DecidableEq

/-- The fields of the request built by `importToSnyk` (source lines
117-137): target owner/name/branch, the single file path, and the
`Authorization: token <snykToken>` header value. -/
structure SnykRequest where
  owner : String
  name : String
  branch : String
  path : String
  token : String
deriving Repr, DecidableEq

/-- Request construction in `importToSnyk` (source lines 118-137). -/
def buildSnykRequest (repo : Repository) (filePath : String)
    (snykToken : String) : SnykRequest :=
  { owner := repo.owner
    name := repo.name
    branch := repo.branch
    path := filePath
    token := snykToken }

/-- Response of the downstream API as observed by `client.Do`: either an
HTTP status code or a transport-level error (the `err` returned by
`client.Do`, e.g. a timeout). -/
inductive ApiResponse where
  | status (code : Nat)
  | netError (msg : String)
deriving Repr, DecidableEq

/-- `importToSnyk` (source lines 117-151): builds the request and turns
the downstream response into `nil` or an error.  The status check is
source lines 146-148: any status other than 200 (`http.StatusOK`) and
201 (`http.StatusCreated`) yields
`fmt.Errorf("Snyk API returned status: %d", resp.StatusCode)`.
The JSON-marshalling and request-construction error paths of the Go
function cannot fire for this fixed payload shape and constant URL, so
they are not modelled. -/
def importToSnyk (repo : Repository) (filePath : String)
    (snykToken : String) (resp : ApiResponse) :
    SnykRequest × Except String Unit :=
  (buildSnykRequest repo filePath snykToken,
   match resp with
   | .netError msg => .error msg
   | .status code =>
     if code ≠ 200 ∧ code ≠ 201 then
       .error ("Snyk API returned status: " ++ toString code)
     else .ok ())

/-- `row.success, row.error_message, row.imported_at` overwritten from
an outcome: the `DO UPDATE SET` clause of `writeImportResult` (source
lines 159-162).  `id` and `repo_id` are not in the `SET` list. -/
def setFields (result : ImportResult) (row : StoreRow) : StoreRow :=
  { row with
    success := result.success
    errorMessage := some result.error
    importedAt := result.importedAt }

/-- Apply the upsert's conflict action to one row: rows whose key
matches the incoming outcome get the three fields overwritten, all
other rows are untouched. -/
def updateRow (result : ImportResult) (row : StoreRow) : StoreRow :=
  if row.key = result.key then setFields result row else row

/-- Whether the table already holds a row with the given natural key. -/
def keyPresent (s : Store) (k : String × String × String) : Bool :=
  s.rows.any (fun row => row.key == k)

/-- `writeImportResult` (source lines 153-166):
`INSERT ... ON CONFLICT (repo_owner, repo_name, file_path) DO UPDATE
SET success, error_message, imported_at`.  Note the Go code always
passes `result.Error` — a `string`, never SQL NULL — so the
`error_message` column receives `some result.error` in every case. -/
def writeImportResult (s : Store) (result : ImportResult) : Store :=
  if keyPresent s result.key then
    { s with rows := s.rows.map (updateRow result) }
  else
    { s with
      rows := s.rows ++
        [{ id := s.nextId
           repoId := result.repoID
           repoOwner := result.owner
           repoName := result.name
           filePath := result.filePath
           success := result.success
           errorMessage := some result.error
           importedAt := result.importedAt }]
      nextId := s.nextId + 1 }

/-- The run's external world: credentials and oracles for the database
(`dbOk` = `sql.Open`+`Ping` succeed; `repos` = `getRepositoriesFromDB`;
`scanResults` = the per-repository `scan_results` query), the
downstream API (`apiResponse`, a function of the request actually
sent), and the wall clock (`now`, read once per outcome at
`time.Now().UTC()`). -/
structure Env where
  githubToken : String
  snykToken : String
  dbOk : Bool
  repos : Except String (List Repository)
  scanResults : String → String → Except String (List (String × String))
  apiResponse : SnykRequest → ApiResponse
  now : String → String → String → Nat

/-- The `ImportResult` built by the worker for one file (source lines
232-245): `Success: err == nil`, `Error` set only on failure (zero
value `""` otherwise), timestamp from the clock oracle. -/
def mkOutcome (env : Env) (repo : Repository) (filePath : String) :
    ImportResult :=
  let req := buildSnykRequest repo filePath env.snykToken
  let res := (importToSnyk repo filePath env.snykToken
    (env.apiResponse req)).2
  { repoID := repo.id
    owner := repo.owner
    name := repo.name
    filePath := filePath
    success := match res with | .ok _ => true | .error _ => false
    error := match res with | .ok _ => "" | .error msg => msg
    importedAt := env.now repo.owner repo.name filePath }

/-- The list of outcomes one worker goroutine pushes onto the channel
(source lines 202-249): a failed `scan_results` query aborts just this
worker with no outcomes; otherwise every yielded file gets exactly one
outcome, submission failure or not.  `limiter.Wait(context.Background())`
cannot return an error (n = 1 ≤ burst, no deadline, never cancelled),
so the `continue` on a limiter error is dead code and every file
proceeds to submission. -/
def workerOutcomes (env : Env) (repo : Repository) : List ImportResult :=
  match env.scanResults repo.owner repo.name with
  | .error _ => []
  | .ok files => files.map (fun f => mkOutcome env repo f.1)

/-- Observable side effects of a run, used to state which external
actions happen (and how often) on each path of `main`. -/
inductive Effect where
  | createTable
  | queryRepositories
  | queryScanResults (owner name : String)
  | apiCall (req : SnykRequest)
  | persistAttempt (result : ImportResult)
deriving Repr, DecidableEq

def Effect.isPersist : Effect → Bool
  | .persistAttempt _ => true
  | _ => false

/-- External actions of one worker: its `scan_results` query, then one
API submission per yielded file (none when the query fails). -/
def workerEffects (env : Env) (repo : Repository) : List Effect :=
  Effect.queryScanResults repo.owner repo.name ::
    (match env.scanResults repo.owner repo.name with
     | .error _ => []
     | .ok files =>
       files.map (fun f =>
         Effect.apiCall (buildSnykRequest repo f.1 env.snykToken)))

/-- All outcomes of the run, worker by worker (one canonical
sequentialisation; cross-worker interleaving is treated separately by
the `PipeStep` semantics). -/
def pipelineOutcomes (env : Env) (repos : List Repository) :
    List ImportResult :=
  (repos.map (workerOutcomes env)).flatten

/-- Total number of candidate files yielded by the scan-results
queries across all repositories (repositories whose query fails
contribute none). -/
def candidateCount (env : Env) (repos : List Repository) : Nat :=
  (repos.map (fun repo =>
    match env.scanResults repo.owner repo.name with
    | .error _ => 0
    | .ok files => files.length)).sum

/-- `main` (source lines 168-270) as a function from the environment
and initial store to the final store and the list of external effects.
The order of `main` is kept: `initDB` (open+ping, then
`CREATE TABLE IF NOT EXISTS`) runs FIRST; only then are
`GITHUB_TOKEN`/`SNYK_TOKEN` checked; then `getRepositoriesFromDB`;
then the workers and the result writer.  The writer attempts
`writeImportResult` once per outcome; a failed write is logged and the
writer continues, so the final store below is the all-writes-succeed
state while `persistAttempt` effects count the attempts. -/
def run (env : Env) (s : Store) : Store × List Effect :=
  if env.dbOk = false then (s, [])
  else
    let s1 : Store := { s with tableExists := true }
    if env.githubToken = "" ∨ env.snykToken = "" then
      (s1, [Effect.createTable])
    else
      match env.repos with
      | .error _ => (s1, [Effect.createTable, Effect.queryRepositories])
      | .ok repos =>
        let outcomes := pipelineOutcomes env repos
        (outcomes.foldl writeImportResult s1,
         Effect.createTable :: Effect.queryRepositories ::
           ((repos.map (workerEffects env)).flatten ++
             outcomes.map Effect.persistAttempt))

/-- Fold of the upsert's conflict action for a whole list of outcomes
over a single row (used to characterise `foldl writeImportResult` on a
store all of whose keys are already present). -/
def updateAll (os : List ImportResult) (row : StoreRow) : StoreRow :=
  os.foldl (fun row r => updateRow r row) row

/-- The last outcome in the list whose key is `k`, if any. -/
def lastMatch : List ImportResult → String × String × String →
    Option ImportResult
  | [], _ => none
  | r :: os, k =>
    match lastMatch os k with
    | some r' => some r'
    | none => if r.key = k then some r else none

/-- The `UNIQUE(repo_owner, repo_name, file_path)` constraint of the
table: no two rows share a natural key. -/
def WF (s : Store) : Prop :=
  s.rows.Pairwise (fun a b => a.key ≠ b.key)

/-- `sub` occurs inside `s` (substring containment). -/
def containsSubstr (s sub : String) : Prop :=
  ∃ pre post, s = pre ++ sub ++ post

/-! ### Small-step semantics of the worker/writer handoff

`main` connects the workers to the single result writer through
`resultsChan` and shuts down with `wg.Wait(); close(resultsChan);
wgWriter.Wait()` (source lines 252-269).  The state below tracks, under
an arbitrary preemptive interleaving: the outcomes each worker still
has to send (`pending`), the channel buffer (`chan`), whether the main
goroutine has closed the channel (`closed`), what the writer has
consumed (`consumed`), and whether the writer goroutine has returned
(`writerDone`).  The buffer capacity (100) only restricts when a send
may fire, so it is soundly dropped: every capacity-respecting run is
one of the runs modelled here. -/
structure PipeState where
  pending : List (List ImportResult)
  chan : List ImportResult
  closed : Bool
  consumed : List ImportResult
  writerDone : Bool

/-- One scheduler step: a worker sends its next outcome, `main` closes
the channel once every worker has finished (`wg.Wait()` then
`close(resultsChan)`), the writer receives the oldest buffered outcome
(`for result := range resultsChan`), or the writer returns once the
channel is closed and drained. -/
inductive PipeStep : PipeState → PipeState → Prop where
  | emit (o : ImportResult) (rest : List ImportResult)
      (l1 l2 : List (List ImportResult)) (st : PipeState)
      (hp : st.pending = l1 ++ (o :: rest) :: l2) :
      PipeStep st { st with pending := l1 ++ rest :: l2
                            chan := st.chan ++ [o] }
  | close (st : PipeState) (hall : ∀ l ∈ st.pending, l = [])
      (hnc : st.closed = false) :
      PipeStep st { st with closed := true }
  | consume (o : ImportResult) (rest : List ImportResult) (st : PipeState)
      (hc : st.chan = o :: rest) (hw : st.writerDone = false) :
      PipeStep st { st with chan := rest
                            consumed := st.consumed ++ [o] }
  | writerExit (st : PipeState) (hcl : st.closed = true)
      (hc : st.chan = []) (hw : st.writerDone = false) :
      PipeStep st { st with writerDone := true }

/-- Reflexive-transitive closure of `PipeStep`. -/
inductive PipeReach : PipeState → PipeState → Prop where
  | refl (st : PipeState) : PipeReach st st
  | tail {a b c : PipeState} :
      PipeReach a b → PipeStep b c → PipeReach a c

/-- Initial handoff state of a run: every worker still has all of its
outcomes to send, nothing buffered, channel open, nothing consumed. -/
def pipeInit (env : Env) (repos : List Repository) : PipeState :=
  { pending := repos.map (workerOutcomes env)
    chan := []
    closed := false
    consumed := []
    writerDone := false }

/-- Everything still owed to the writer plus everything it has seen. -/
def PipeState.load (st : PipeState) : Multiset ImportResult :=
  (st.consumed : Multiset ImportResult) + (st.chan : Multiset ImportResult)
    + (st.pending.flatten : Multiset ImportResult)

/-! ### Rate Gate model

Modelled from the spec: the Rate Gate is `rate.NewLimiter
(rate.Every(time.Second), 5)` and `limiter.Wait(ctx)` from
`golang.org/x/time/rate` — library code not part of this repository.
Per the spec's §4.1/§5 contract, a blocked `acquire` resolves either
when a token is granted (at some time `grantAt`, determined by the
shared bucket) or when the run-scoped cancellation signal fires first
(`cancelAt`); it fails for no other reason.  The program itself passes
`context.Background()`, i.e. `cancelAt = none`. -/
inductive WaitOutcome where
  | granted (t : Nat)
  | canceled
deriving Repr, DecidableEq

/-- Modelled from the spec: resolution of one blocking `acquire`.
`cancelAt = none` is `context.Background()`; with `cancelAt = some c`
the wait is canceled exactly when the signal fires no later than the
token grant. -/
def limiterWait (cancelAt : Option Nat) (grantAt : Nat) : WaitOutcome :=
  match cancelAt with
  | none => .granted grantAt
  | some c => if c ≤ grantAt then .canceled else .granted grantAt

/-- The worker's per-file gate (source lines 224-233): each file waits
on the limiter; on a limiter error the file is skipped (`continue`)
with no submission, otherwise the file is submitted.  Each file is
paired with the time the shared bucket would grant it a token. -/
def workerSubmits (cancelAt : Option Nat) :
    List (String × Nat) → List (String × Nat)
  | [] => []
  | (f, g) :: rest =>
    match limiterWait cancelAt g with
    | .granted _ => (f, g) :: workerSubmits cancelAt rest
    | .canceled => workerSubmits cancelAt rest

/-! ### Concrete data used by witnesses and counterexamples -/

/-- Empty store: table not yet provisioned, id sequence at 1. -/
def store0 : Store := { tableExists := false, rows := [], nextId := 1 }

/-- The spec's end-to-end scenario repository
`{id:1, owner:"acme", name:"api", branch:"main"}`. -/
def repoAcme : Repository :=
  { id := 1, owner := "acme", name := "api", branch := "main" }

/-- The spec's end-to-end scenario environment: one repository, files
`go.mod` and `package.json`, downstream 201 for `go.mod` and 500 for
`package.json`. -/
def envScenario : Env :=
  { githubToken := "gh-token"
    snykToken := "snyk-token"
    dbOk := true
    repos := .ok [repoAcme]
    scanResults := fun owner name =>
      if owner = "acme" ∧ name = "api" then
        .ok [("go.mod", "gomod"), ("package.json", "npm")]
      else .ok []
    apiResponse := fun req =>
      if req.path = "go.mod" then .status 201 else .status 500
    now := fun _ _ _ => 42 }

/-- Second repository for the isolation witness. -/
def repoBeta : Repository :=
  { id := 2, owner := "beta", name := "lib", branch := "dev" }

/-- Witness environment for failure isolation: repository `acme/api`'s
scan-results query FAILS, repository `beta/lib` yields two files of
which the second submission fails with a 500. -/
def envIso : Env :=
  { githubToken := "gh-token"
    snykToken := "snyk-token"
    dbOk := true
    repos := .ok [repoAcme, repoBeta]
    scanResults := fun owner name =>
      if owner = "beta" ∧ name = "lib" then
        .ok [("go.mod", "gomod"), ("package.json", "npm")]
      else .error "connection reset"
    apiResponse := fun req =>
      if req.path = "go.mod" then .status 200 else .status 500
    now := fun _ _ _ => 7 }

/-- Same world as `envIso` except that `acme/api`'s scan-results query
succeeds (with one file): the two environments agree on everything
`beta/lib`'s worker can observe. -/
def envIso' : Env :=
  { envIso with
    scanResults := fun owner name =>
      if owner = "beta" ∧ name = "lib" then
        .ok [("go.mod", "gomod"), ("package.json", "npm")]
      else .ok [("requirements.txt", "pip")] }

/-- The row the end-to-end scenario is expected to hold for `go.mod`:
note `errorMessage = some ""` — the Go code persists the zero-value
string, never SQL NULL. -/
def rowGoMod : StoreRow :=
  { id := 1
    repoId := 1
    repoOwner := "acme"
    repoName := "api"
    filePath := "go.mod"
    success := true
    errorMessage := some ""
    importedAt := 42 }

/-- The row the end-to-end scenario holds for `package.json`. -/
def rowPackageJson : StoreRow :=
  { id := 2
    repoId := 1
    repoOwner := "acme"
    repoName := "api"
    filePath := "package.json"
    success := false
    errorMessage := some "Snyk API returned status: 500"
    importedAt := 42 }

/-- A pre-existing persisted record, for the frame-effect witness. -/
def rowOld : StoreRow :=
  { id := 7
    repoId := 1
    repoOwner := "acme"
    repoName := "api"
    filePath := "go.mod"
    success := false
    errorMessage := some "old failure"
    importedAt := 5 }

/-- A store already holding `rowOld`. -/
def storeC10 : Store := { tableExists := true, rows := [rowOld], nextId := 8 }

/-- A later outcome for the same key but a DIFFERENT repository id. -/
def resultNew : ImportResult :=
  { repoID := 99
    owner := "acme"
    name := "api"
    filePath := "go.mod"
    success := true
    error := ""
    importedAt := 9 }

/-- Invariant of the handoff semantics: the channel is only ever closed
once every worker has emitted everything (`wg.Wait()` precedes
`close(resultsChan)`), and the writer only returns once the channel is
closed and drained (`range` ends only then). -/
def PipeInv (st : PipeState) : Prop :=
  (st.closed = true → ∀ l ∈ st.pending, l = []) ∧
  (st.writerDone = true → st.closed = true ∧ st.chan = [])

/-- One-repository, one-file environment for the handoff witness. -/
def envPipe : Env :=
  { githubToken := "gh"
    snykToken := "sk"
    dbOk := true
    repos := .ok [repoAcme]
    scanResults := fun _ _ => .ok [("go.mod", "gomod")]
    apiResponse := fun _ => .status 201
    now := fun _ _ _ => 0 }

/-- The single outcome of `envPipe`'s run. -/
def oPipe : ImportResult := mkOutcome envPipe repoAcme "go.mod"

/-- Handoff state after the worker's send. -/
def pipeS1 : PipeState :=
  { pending := [[]]
    chan := [oPipe]
    closed := false
    consumed := []
    writerDone := false }

/-- Handoff state after `close(resultsChan)`. -/
def pipeS2 : PipeState :=
  { pending := [[]]
    chan := [oPipe]
    closed := true
    consumed := []
    writerDone := false }

/-- Handoff state after the writer receives the outcome. -/
def pipeS3 : PipeState :=
  { pending := [[]]
    chan := []
    closed := true
    consumed := [oPipe]
    writerDone := false }

/-- Terminal handoff state: writer returned, everything consumed. -/
def pipeFinal : PipeState :=
  { pending := [[]]
    chan := []
    closed := true
    consumed := [oPipe]
    writerDone := true }

/-- An earlier outcome for `rowOld`'s key, for the idempotence
witness. -/
def resultFirst : ImportResult :=
  { repoID := 1
    owner := "acme"
    name := "api"
    filePath := "go.mod"
    success := false
    error := "Snyk API returned status: 429"
    importedAt := 8 }

/-! ## Theorems -/

theorem str_append_empty (s : String) : s ++ "" = s :=
  String.append_empty s

/-- C3: for every repository, file path and token, the import client
succeeds iff the downstream API responds 200 or 201, and on any other
status it fails with an error text containing that numeric status
code. -/
theorem importToSnyk_status_contract (repo : Repository)
    (filePath snykToken : String) (status : Nat) :
    ((importToSnyk repo filePath snykToken (.status status)).2 = .ok () ↔
      (status = 200 ∨ status = 201)) ∧
    (status ≠ 200 → status ≠ 201 →
      ∃ msg, (importToSnyk repo filePath snykToken (.status status)).2 =
          .error msg ∧ containsSubstr msg (toString status)) := by
  constructor
  · unfold importToSnyk
    by_cases h200 : status = 200
    · simp [h200]
    · by_cases h201 : status = 201
      · simp [h201]
      · simp [h200, h201]
  · intro h200 h201
    refine ⟨"Snyk API returned status: " ++ toString status, ?_, ?_⟩
    · simp [importToSnyk, h200, h201]
    · exact ⟨"Snyk API returned status: ", "", by rw [str_append_empty]⟩

/-- Witness for C3 at statuses 201 and 500. -/
theorem importToSnyk_status_contract_witness :
    ((importToSnyk repoAcme "go.mod" "snyk-token" (.status 201)).2 =
        .ok () ↔ ((201 : Nat) = 200 ∨ (201 : Nat) = 201)) ∧
    (∃ msg, (importToSnyk repoAcme "package.json" "snyk-token"
        (.status 500)).2 = .error msg ∧
      containsSubstr msg (toString (500 : Nat))) :=
  ⟨(importToSnyk_status_contract repoAcme "go.mod" "snyk-token" 201).1,
   (importToSnyk_status_contract repoAcme "package.json" "snyk-token" 500).2
     (by decide) (by decide)⟩

theorem workerOutcomes_congr (e e' : Env)
    (hs : e'.snykToken = e.snykToken) (hsc : e'.scanResults = e.scanResults)
    (ha : e'.apiResponse = e.apiResponse) (hn : e'.now = e.now)
    (r : Repository) : workerOutcomes e' r = workerOutcomes e r := by
  unfold workerOutcomes mkOutcome
  simp only [hs, hsc, ha, hn]

theorem workerEffects_congr (e e' : Env)
    (hs : e'.snykToken = e.snykToken) (hsc : e'.scanResults = e.scanResults)
    (r : Repository) : workerEffects e' r = workerEffects e r := by
  unfold workerEffects
  simp only [hs, hsc]

theorem pipelineOutcomes_congr (e e' : Env)
    (hs : e'.snykToken = e.snykToken) (hsc : e'.scanResults = e.scanResults)
    (ha : e'.apiResponse = e.apiResponse) (hn : e'.now = e.now)
    (repos : List Repository) :
    pipelineOutcomes e' repos = pipelineOutcomes e repos := by
  unfold pipelineOutcomes
  exact congrArg List.flatten
    (List.map_congr_left fun r _ => workerOutcomes_congr e e' hs hsc ha hn r)

theorem run_congr (e e' : Env)
    (hg : e'.githubToken = "" ↔ e.githubToken = "")
    (hs : e'.snykToken = e.snykToken) (hd : e'.dbOk = e.dbOk)
    (hr : e'.repos = e.repos) (hsc : e'.scanResults = e.scanResults)
    (ha : e'.apiResponse = e.apiResponse) (hn : e'.now = e.now)
    (s : Store) : run e' s = run e s := by
  unfold run
  rw [hd, hs, hr]
  simp only [hg]
  by_cases hdb : e.dbOk = false
  · simp [hdb]
  · by_cases htok : e.githubToken = "" ∨ e.snykToken = ""
    · simp [hdb, htok]
    · cases hre : e.repos with
      | error a => simp [hdb, htok, hre]
      | ok repos =>
        have hw : List.map (workerEffects e') repos =
            List.map (workerEffects e) repos :=
          List.map_congr_left fun r _ => workerEffects_congr e e' hs hsc r
        simp [hdb, htok, hre,
          pipelineOutcomes_congr e e' hs hsc ha hn repos, hw]

/-- C9: the value of GITHUB_TOKEN (as long as it is non-empty) does not
influence the run at all: the final store — hence every persisted row
of the import table — and the full effect trace — hence every
submission request sent downstream — are identical. -/
theorem github_token_noninterference (env : Env) (t : String) (s : Store)
    (h1 : env.githubToken ≠ "") (h2 : t ≠ "") :
    run { env with githubToken := t } s = run env s :=
  run_congr env { env with githubToken := t }
    (iff_of_false h2 h1) rfl rfl rfl rfl rfl rfl s

/-- Witness for C9: swapping the GitHub token in the scenario changes
nothing. -/
theorem github_token_noninterference_witness :
    run { envScenario with githubToken := "another-token" } store0 =
      run envScenario store0 :=
  github_token_noninterference envScenario "another-token" store0
    (by decide) (by decide)

/-- C5 counterexample: with GITHUB_TOKEN missing (and the database
reachable), the run still mutates the result store — `initDB` runs
`CREATE TABLE IF NOT EXISTS snyk_imports` BEFORE the credential check
(source lines 168-183) — so "no state in the result store is created
or modified" is false. -/
theorem credential_check_after_db_init_cex :
    (run { envScenario with githubToken := "" } store0).1 ≠ store0 ∧
    (run { envScenario with githubToken := "" } store0).1.tableExists = true ∧
    store0.tableExists = false ∧
    (run { envScenario with githubToken := "" } store0).2 =
      [Effect.createTable] := by decide

/-- C5 (amended): if either credential is missing, the run launches no
worker, issues no repository or scan-results query, makes no downstream
API call and writes no row — but only after `initDB` has run, so the
`snyk_imports` table is still provisioned (`CREATE TABLE IF NOT
EXISTS`) when the database is reachable. -/
theorem missing_credentials_no_import_work (env : Env) (s : Store)
    (h : env.githubToken = "" ∨ env.snykToken = "") :
    (run env s).1.rows = s.rows ∧ (run env s).1.nextId = s.nextId ∧
    ∀ e ∈ (run env s).2, e = Effect.createTable := by
  unfold run
  by_cases hdb : env.dbOk = false
  · simp [hdb]
  · rw [if_neg hdb, if_pos h]
    simp

/-- Witness for the amended C5. -/
theorem missing_credentials_no_import_work_witness :
    (run { envScenario with githubToken := "" } store0).1.rows =
        store0.rows ∧
    (run { envScenario with githubToken := "" } store0).1.nextId =
        store0.nextId ∧
    ∀ e ∈ (run { envScenario with githubToken := "" } store0).2,
      e = Effect.createTable :=
  missing_credentials_no_import_work { envScenario with githubToken := "" }
    store0 (Or.inl (by decide))

/-- C6 counterexample: in the spec's end-to-end scenario the
`(acme, api, go.mod)` row does NOT have `error_message = NULL`: the
code passes `result.Error` (the Go zero-value string `""`) on every
write, so the column holds the empty string. -/
theorem scenario_error_message_not_null_cex :
    (∀ row ∈ (run envScenario store0).1.rows,
      row.key = ("acme", "api", "go.mod") → row.errorMessage = some "") ∧
    ¬ (∃ row ∈ (run envScenario store0).1.rows,
      row.key = ("acme", "api", "go.mod") ∧ row.errorMessage = none) := by
  decide

/-- C6 (amended): the scenario's final store holds exactly the two
expected rows, with `(acme, api, go.mod)` succeeding with
`error_message` equal to the EMPTY STRING (not NULL) and
`(acme, api, package.json)` failing with an error message containing
"500". -/
theorem scenario_final_store :
    (run envScenario store0).1.rows = [rowGoMod, rowPackageJson] ∧
    rowGoMod.success = true ∧ rowGoMod.errorMessage = some "" ∧
    rowPackageJson.success = false ∧
    ∃ msg, rowPackageJson.errorMessage = some msg ∧
      containsSubstr msg "500" :=
  ⟨by decide, rfl, rfl, rfl,
   ⟨"Snyk API returned status: 500", rfl,
    ⟨"Snyk API returned status: ", "", by decide⟩⟩⟩

/-- C10: when a row for the key already exists, the upsert maps every
row through `updateRow`, which keeps `id` and `repo_id` (they are not
in the `DO UPDATE SET` list) and overwrites exactly `success`,
`error_message` and `imported_at` on the matching row — even when the
incoming outcome carries a different repository id; the id sequence is
untouched. -/
theorem upsert_frame (s : Store) (result : ImportResult)
    (hpresent : keyPresent s result.key = true) :
    (writeImportResult s result).rows = s.rows.map (updateRow result) ∧
    (writeImportResult s result).nextId = s.nextId ∧
    ∀ row : StoreRow,
      (updateRow result row).id = row.id ∧
      (updateRow result row).repoId = row.repoId ∧
      (row.key = result.key →
        (updateRow result row).success = result.success ∧
        (updateRow result row).errorMessage = some result.error ∧
        (updateRow result row).importedAt = result.importedAt) ∧
      (row.key ≠ result.key → updateRow result row = row) := by
  refine ⟨?_, ?_, ?_⟩
  · unfold writeImportResult
    rw [if_pos hpresent]
  · unfold writeImportResult
    rw [if_pos hpresent]
  · intro row
    unfold updateRow setFields
    by_cases hk : row.key = result.key <;> simp [hk]

/-- Witness for C10: the stored row keeps id 7 and repo_id 1 although
the new outcome carries repo id 99. -/
theorem upsert_frame_witness :
    (writeImportResult storeC10 resultNew).rows =
      storeC10.rows.map (updateRow resultNew) ∧
    (updateRow resultNew rowOld).id = rowOld.id ∧
    (updateRow resultNew rowOld).repoId = rowOld.repoId ∧
    (updateRow resultNew rowOld).success = resultNew.success :=
  ⟨(upsert_frame storeC10 resultNew (by decide)).1,
   ((upsert_frame storeC10 resultNew (by decide)).2.2 rowOld).1,
   ((upsert_frame storeC10 resultNew (by decide)).2.2 rowOld).2.1,
   (((upsert_frame storeC10 resultNew (by decide)).2.2 rowOld).2.2.1
     (by decide)).1⟩

/-- C8: a Rate Gate wait resolves only as a token grant or as a
cancellation (it fails for no other reason); with the program's
`context.Background()` it always resolves as a grant; and once the
cancellation signal has fired, no file whose token grant would come at
or after the signal is ever submitted — remaining waits abort without
submitting further requests. -/
theorem rate_gate_contract :
    (∀ (cancelAt : Option Nat) (grantAt : Nat),
      limiterWait cancelAt grantAt = .canceled →
        ∃ c, cancelAt = some c ∧ c ≤ grantAt) ∧
    (∀ grantAt : Nat, limiterWait none grantAt = .granted grantAt) ∧
    (∀ (c : Nat) (files : List (String × Nat)) (fg : String × Nat),
      fg ∈ workerSubmits (some c) files → fg.2 < c) := by
  refine ⟨?_, fun _ => rfl, ?_⟩
  · intro cancelAt grantAt h
    match cancelAt with
    | none => simp [limiterWait] at h
    | some c =>
      refine ⟨c, rfl, ?_⟩
      by_cases hc : c ≤ grantAt
      · exact hc
      · simp [limiterWait, hc] at h
  · intro c files
    induction files with
    | nil => intro fg h; simp [workerSubmits] at h
    | cons hd tl ih =>
      intro fg h
      obtain ⟨f, g⟩ := hd
      by_cases hc : c ≤ g
      · rw [show workerSubmits (some c) ((f, g) :: tl) =
            workerSubmits (some c) tl from by
          simp [workerSubmits, limiterWait, hc]] at h
        exact ih fg h
      · rw [show workerSubmits (some c) ((f, g) :: tl) =
            (f, g) :: workerSubmits (some c) tl from by
          simp [workerSubmits, limiterWait, hc]] at h
        rcases List.mem_cons.mp h with heq | hmem
        · subst heq
          exact Nat.lt_of_not_le hc
        · exact ih fg hmem

/-- Witness for C8: a concrete canceled wait, a concrete background
wait, and a concrete gated loop. -/
theorem rate_gate_contract_witness :
    (∃ c, (some 5 : Option Nat) = some c ∧ c ≤ 7) ∧
    limiterWait none 3 = .granted 3 ∧
    (("a", 2) : String × Nat).2 < 5 :=
  ⟨rate_gate_contract.1 (some 5) 7 (by decide),
   rate_gate_contract.2.1 3,
   rate_gate_contract.2.2 5 [("a", 2), ("b", 7)] ("a", 2) (by decide)⟩

theorem workerOutcomes_length (env : Env) (r : Repository) :
    (workerOutcomes env r).length =
      match env.scanResults r.owner r.name with
      | .error _ => 0
      | .ok files => files.length := by
  unfold workerOutcomes
  cases env.scanResults r.owner r.name <;> simp

theorem workerEffects_no_persist (env : Env) (r : Repository) :
    ∀ e ∈ workerEffects env r, Effect.isPersist e = false := by
  intro e he
  unfold workerEffects at he
  rcases List.mem_cons.mp he with rfl | he'
  · rfl
  · cases hsc : env.scanResults r.owner r.name with
    | error a => rw [hsc] at he'; simp at he'
    | ok files =>
      rw [hsc] at he'
      obtain ⟨f, _, rfl⟩ := List.mem_map.mp he'
      rfl

/-- C1: when the database is up, the credentials are present and the
inventory query succeeds, a run over these repositories produces
exactly one Import Outcome per candidate file yielded by the
scan-results queries — F in total — and the result writer makes
exactly F persistence attempts, however many submissions fail. -/
theorem no_dropped_outcomes (env : Env) (s : Store)
    (repos : List Repository)
    (hdb : env.dbOk = true) (hg : env.githubToken ≠ "")
    (hsn : env.snykToken ≠ "") (hrepos : env.repos = .ok repos) :
    (pipelineOutcomes env repos).length = candidateCount env repos ∧
    (run env s).2.countP Effect.isPersist = candidateCount env repos := by
  have hlen : (pipelineOutcomes env repos).length =
      candidateCount env repos := by
    unfold pipelineOutcomes candidateCount
    rw [List.length_flatten, List.map_map]
    exact congrArg List.sum
      (List.map_congr_left fun r _ => workerOutcomes_length env r)
  refine ⟨hlen, ?_⟩
  unfold run
  rw [if_neg (by simp [hdb]), if_neg (by simp [hg, hsn]), hrepos]
  simp only [List.countP_cons, List.countP_append]
  have hworker :
      ((repos.map (workerEffects env)).flatten).countP Effect.isPersist
        = 0 := by
    rw [List.countP_eq_zero]
    intro e he
    obtain ⟨l, hl, hel⟩ := List.mem_flatten.mp he
    obtain ⟨r, _, rfl⟩ := List.mem_map.mp hl
    simp [workerEffects_no_persist env r e hel]
  have hpersist :
      ((pipelineOutcomes env repos).map Effect.persistAttempt).countP
          Effect.isPersist =
        (pipelineOutcomes env repos).length := by
    rw [← List.length_map (pipelineOutcomes env repos)
      Effect.persistAttempt]
    rw [List.countP_eq_length]
    intro e he
    obtain ⟨o, _, rfl⟩ := List.mem_map.mp he
    rfl
  simp [hworker, hpersist, hlen, Effect.isPersist]

/-- Witness for C1 on a run where one repository's scan query fails and
one submission fails: two candidate files, two outcomes, two
persistence attempts. -/
theorem no_dropped_outcomes_witness :
    (pipelineOutcomes envIso [repoAcme, repoBeta]).length =
        candidateCount envIso [repoAcme, repoBeta] ∧
    (run envIso store0).2.countP Effect.isPersist =
        candidateCount envIso [repoAcme, repoBeta] :=
  no_dropped_outcomes envIso store0 [repoAcme, repoBeta]
    (by decide) (by decide) (by decide) rfl

/-- C4: errors are isolated per (repository, file).  For any repository
`r` whose scan query yields `files`, (a) `r`'s outcomes are exactly one
per file whatever the per-file submission responses are — a failed
submission does not abort the remaining files; (b) they are unchanged
under ANY change to the rest of the world (e.g. another repository's
scan query failing), since any second environment agreeing with the
first on `r`'s own query, responses and clock gives the same outcomes;
and (c) each of these outcomes is persisted by the run. -/
theorem failure_isolation (env env' : Env) (s : Store)
    (repos : List Repository) (r : Repository)
    (files : List (String × String))
    (hdb : env.dbOk = true) (hg : env.githubToken ≠ "")
    (hsn : env.snykToken ≠ "") (hrepos : env.repos = .ok repos)
    (hr : r ∈ repos)
    (hscan : env.scanResults r.owner r.name = .ok files)
    (hscan' : env'.scanResults r.owner r.name = .ok files)
    (htok : env'.snykToken = env.snykToken)
    (hapi : ∀ p, env'.apiResponse (buildSnykRequest r p env.snykToken) =
      env.apiResponse (buildSnykRequest r p env.snykToken))
    (hnow : ∀ p, env'.now r.owner r.name p = env.now r.owner r.name p) :
    workerOutcomes env' r = workerOutcomes env r ∧
    (workerOutcomes env r).map (fun o => o.filePath) =
      files.map Prod.fst ∧
    ∀ o ∈ workerOutcomes env r,
      Effect.persistAttempt o ∈ (run env s).2 := by
  have houtcome : ∀ p, mkOutcome env' r p = mkOutcome env r p := by
    intro p
    unfold mkOutcome
    simp only [htok, hapi p, hnow p]
  refine ⟨?_, ?_, ?_⟩
  · unfold workerOutcomes
    rw [hscan, hscan']
    exact List.map_congr_left fun f _ => houtcome f.1
  · unfold workerOutcomes
    rw [hscan, List.map_map]
    exact List.map_congr_left fun f _ => rfl
  · intro o ho
    unfold run
    rw [if_neg (by simp [hdb]), if_neg (by simp [hg, hsn]), hrepos]
    have hmem : o ∈ pipelineOutcomes env repos :=
      List.mem_flatten.mpr
        ⟨workerOutcomes env r, List.mem_map_of_mem _ hr, ho⟩
    simp only [List.mem_cons, List.mem_append]
    exact Or.inr (Or.inr (Or.inr (List.mem_map_of_mem _ hmem)))

/-- Witness for C4: `acme/api`'s scan query fails in `envIso`, yet
`beta/lib`'s worker produces one outcome per file (its second
submission fails with a 500) and every outcome is persisted; the
outcomes agree with `envIso'`, where `acme/api`'s query succeeds. -/
theorem failure_isolation_witness :
    workerOutcomes envIso' repoBeta = workerOutcomes envIso repoBeta ∧
    (workerOutcomes envIso repoBeta).map (fun o => o.filePath) =
      [("go.mod", "gomod"), ("package.json", "npm")].map Prod.fst ∧
    ∀ o ∈ workerOutcomes envIso repoBeta,
      Effect.persistAttempt o ∈ (run envIso store0).2 :=
  failure_isolation envIso envIso' store0 [repoAcme, repoBeta] repoBeta
    [("go.mod", "gomod"), ("package.json", "npm")]
    (by decide) (by decide) (by decide) rfl (by decide)
    rfl rfl rfl (fun p => rfl) (fun p => rfl)

theorem updateRow_key (r : ImportResult) (row : StoreRow) :
    (updateRow r row).key = row.key := by
  unfold updateRow setFields
  split <;> rfl

theorem setFields_setFields (r r' : ImportResult) (row : StoreRow) :
    setFields r (setFields r' row) = setFields r row := rfl

theorem updateAll_cons (r : ImportResult) (os : List ImportResult)
    (row : StoreRow) :
    updateAll (r :: os) row = updateAll os (updateRow r row) := rfl

theorem lastMatch_none (os : List ImportResult)
    (k : String × String × String) (h : lastMatch os k = none) :
    ∀ r ∈ os, r.key ≠ k := by
  induction os with
  | nil => intro r hr; exact absurd hr (List.not_mem_nil r)
  | cons r0 os ih =>
    intro r hr
    unfold lastMatch at h
    cases hlm : lastMatch os k with
    | some r' => rw [hlm] at h; simp at h
    | none =>
      rw [hlm] at h
      by_cases hk : r0.key = k
      · rw [if_pos hk] at h; simp at h
      · rcases List.mem_cons.mp hr with rfl | hr'
        · exact hk
        · exact ih hlm r hr'

theorem lastMatch_cons (r0 : ImportResult) (os : List ImportResult)
    (k : String × String × String) :
    lastMatch (r0 :: os) k =
      match lastMatch os k with
      | some r' => some r'
      | none => if r0.key = k then some r0 else none := rfl

theorem updateAll_char (os : List ImportResult) (row : StoreRow) :
    updateAll os row =
      match lastMatch os row.key with
      | none => row
      | some r => setFields r row := by
  induction os generalizing row with
  | nil => rfl
  | cons r0 os ih =>
    rw [updateAll_cons, ih (updateRow r0 row), updateRow_key,
      lastMatch_cons]
    cases hlm : lastMatch os row.key with
    | some r' =>
      show setFields r' (updateRow r0 row) = setFields r' row
      unfold updateRow
      by_cases h0 : row.key = r0.key
      · rw [if_pos h0]; exact setFields_setFields r' r0 row
      · rw [if_neg h0]
    | none =>
      by_cases h0 : r0.key = row.key
      · rw [if_pos h0]
        show updateRow r0 row = setFields r0 row
        unfold updateRow
        rw [if_pos h0.symm]
      · rw [if_neg h0]
        show updateRow r0 row = row
        unfold updateRow
        rw [if_neg (fun hh => h0 hh.symm)]

theorem writeImportResult_present (s : Store) (r : ImportResult)
    (h : keyPresent s r.key = true) :
    writeImportResult s r = { s with rows := s.rows.map (updateRow r) } := by
  unfold writeImportResult
  rw [if_pos h]

theorem any_key_map (l : List StoreRow) (f : StoreRow → StoreRow)
    (hf : ∀ row, (f row).key = row.key) (k : String × String × String) :
    (l.map f).any (fun row => row.key == k) =
      l.any (fun row => row.key == k) := by
  rw [List.any_map]
  have hfun : ((fun row : StoreRow => row.key == k) ∘ f) =
      (fun row : StoreRow => row.key == k) :=
    funext fun row => by simp [Function.comp, hf row]
  rw [hfun]

theorem keyPresent_write_mono (s : Store) (r' : ImportResult)
    (k : String × String × String) (h : keyPresent s k = true) :
    keyPresent (writeImportResult s r') k = true := by
  unfold writeImportResult
  split
  · simp only [keyPresent] at h ⊢
    rw [any_key_map s.rows (updateRow r') (updateRow_key r') k]
    exact h
  · simp only [keyPresent] at h ⊢
    rw [List.any_append, h, Bool.true_or]

theorem keyPresent_write_self (s : Store) (r : ImportResult) :
    keyPresent (writeImportResult s r) r.key = true := by
  unfold writeImportResult
  by_cases hp : keyPresent s r.key = true
  · rw [if_pos hp]
    simp only [keyPresent] at hp ⊢
    rw [any_key_map s.rows (updateRow r) (updateRow_key r) r.key]
    exact hp
  · rw [if_neg hp]
    simp only [keyPresent, List.any_append, List.any_cons]
    simp [StoreRow.key, ImportResult.key]

theorem keyPresent_foldl_mono (os : List ImportResult) :
    ∀ (s : Store) (k : String × String × String),
      keyPresent s k = true →
      keyPresent (os.foldl writeImportResult s) k = true := by
  induction os with
  | nil => intro s k h; exact h
  | cons r os ih =>
    intro s k h
    rw [List.foldl_cons]
    exact ih _ k (keyPresent_write_mono s r k h)

theorem keyPresent_foldl_all (os : List ImportResult) :
    ∀ (s : Store), ∀ r ∈ os,
      keyPresent (os.foldl writeImportResult s) r.key = true := by
  induction os with
  | nil => intro s r hr; exact absurd hr (List.not_mem_nil r)
  | cons r0 os ih =>
    intro s r hr
    rw [List.foldl_cons]
    rcases List.mem_cons.mp hr with rfl | hr'
    · exact keyPresent_foldl_mono os _ _ (keyPresent_write_self s r)
    · exact ih _ r hr'

theorem foldl_write_present (os : List ImportResult) :
    ∀ (s : Store), (∀ r ∈ os, keyPresent s r.key = true) →
      os.foldl writeImportResult s =
        { s with rows := s.rows.map (updateAll os) } := by
  induction os with
  | nil =>
    intro s _
    have hrows : s.rows.map (updateAll []) = s.rows := by
      calc s.rows.map (updateAll [])
          = s.rows.map (fun row => row) :=
            List.map_congr_left (fun row _ => rfl)
        _ = s.rows := List.map_id' s.rows
    rw [List.foldl_nil, hrows]
  | cons r0 os ih =>
    intro s h
    rw [List.foldl_cons,
      writeImportResult_present s r0 (h r0 (List.mem_cons_self r0 os))]
    rw [ih _ (fun r hr => by
      simp only [keyPresent]
      rw [any_key_map s.rows (updateRow r0) (updateRow_key r0) r.key]
      exact h r (List.mem_cons_of_mem r0 hr))]
    rw [List.map_map]
    rfl

theorem foldl_untouched (os : List ImportResult)
    (k : String × String × String) :
    ∀ (u : Store), (∀ r ∈ os, r.key ≠ k) →
      ∀ row ∈ (os.foldl writeImportResult u).rows, row.key = k →
        row ∈ u.rows := by
  induction os with
  | nil => intro u _ row hrow _; exact hrow
  | cons r0 os ih =>
    intro u h row hrow hk
    have h0 : r0.key ≠ k := h r0 (List.mem_cons_self r0 os)
    rw [List.foldl_cons] at hrow
    have hrow' : row ∈ (writeImportResult u r0).rows :=
      ih (writeImportResult u r0)
        (fun r hr => h r (List.mem_cons_of_mem r0 hr)) row hrow hk
    unfold writeImportResult at hrow'
    split at hrow'
    · obtain ⟨row0, hrow0, heq⟩ := List.mem_map.mp hrow'
      have hk0 : row0.key = k := by
        rw [← updateRow_key r0 row0, heq, hk]
      have hfix : updateRow r0 row0 = row0 := by
        unfold updateRow
        rw [if_neg (by rw [hk0]; exact fun hh => h0 hh.symm)]
      rw [← heq, hfix]
      exact hrow0
    · rcases List.mem_append.mp hrow' with h1 | h2
      · exact h1
      · exfalso
        have h2' := List.mem_singleton.mp h2
        rw [h2'] at hk
        exact h0 hk

theorem rows_fields_lastMatch (os : List ImportResult) :
    ∀ (s : Store), ∀ row ∈ (os.foldl writeImportResult s).rows,
      ∀ r, lastMatch os row.key = some r → setFields r row = row := by
  induction os with
  | nil => intro s row _ r hlm; simp [lastMatch] at hlm
  | cons r0 os ih =>
    intro s row hrow r hlm
    rw [List.foldl_cons] at hrow
    unfold lastMatch at hlm
    cases hlm2 : lastMatch os row.key with
    | some r'' =>
      rw [hlm2] at hlm
      have hr : r'' = r := by simpa using hlm
      subst hr
      exact ih (writeImportResult s r0) row hrow r'' hlm2
    | none =>
      rw [hlm2] at hlm
      by_cases h0 : r0.key = row.key
      · rw [if_pos h0] at hlm
        have hr : r0 = r := by simpa using hlm
        subst hr
        have hnm : ∀ r' ∈ os, r'.key ≠ row.key :=
          lastMatch_none os row.key hlm2
        have hrow' : row ∈ (writeImportResult s r0).rows :=
          foldl_untouched os row.key (writeImportResult s r0) hnm
            row hrow rfl
        unfold writeImportResult at hrow'
        split at hrow'
        · obtain ⟨row0, hrow0, heq⟩ := List.mem_map.mp hrow'
          have hk0 : row0.key = r0.key := by
            rw [← updateRow_key r0 row0, heq, ← h0]
          have hupd : updateRow r0 row0 = setFields r0 row0 := by
            unfold updateRow
            rw [if_pos hk0]
          rw [← heq, hupd]
          exact setFields_setFields r0 r0 row0
        · rcases List.mem_append.mp hrow' with h1 | h2
          · exfalso
            rename_i hp
            apply hp
            exact List.any_eq_true.mpr
              ⟨row, h1, beq_iff_eq.mpr (h0 ▸ rfl : row.key = r0.key)⟩
          · have h2' := List.mem_singleton.mp h2
            rw [h2']
            rfl
      · rw [if_neg h0] at hlm
        exact absurd hlm (by simp)

theorem fold_write_idem (os : List ImportResult) (s : Store) :
    os.foldl writeImportResult (os.foldl writeImportResult s) =
      os.foldl writeImportResult s := by
  have hpres := keyPresent_foldl_all os s
  rw [foldl_write_present os _ hpres]
  have hrows : (os.foldl writeImportResult s).rows.map (updateAll os) =
      (os.foldl writeImportResult s).rows := by
    calc (os.foldl writeImportResult s).rows.map (updateAll os)
        = (os.foldl writeImportResult s).rows.map (fun row => row) := by
          refine List.map_congr_left (fun row hrow => ?_)
          rw [updateAll_char os row]
          cases hlm : lastMatch os row.key with
          | none => rfl
          | some r => exact rows_fields_lastMatch os s row hrow r hlm
      _ = (os.foldl writeImportResult s).rows :=
          List.map_id' _
  rw [hrows]

theorem WF_write (s : Store) (r : ImportResult) (h : WF s) :
    WF (writeImportResult s r) := by
  unfold writeImportResult
  split
  · exact List.Pairwise.map _
      (fun a b hab => by rw [updateRow_key, updateRow_key]; exact hab) h
  · rename_i hp
    have hp' : keyPresent s r.key = false := by
      revert hp; cases keyPresent s r.key <;> simp
    unfold WF
    rw [List.pairwise_append]
    refine ⟨h, List.pairwise_singleton _ _, ?_⟩
    intro a ha b hb
    have hb' := List.mem_singleton.mp hb
    rw [hb']
    intro hak
    have := List.any_eq_false.mp hp' a ha
    exact this (beq_iff_eq.mpr hak)

theorem WF_foldl (os : List ImportResult) :
    ∀ (s : Store), WF s → WF (os.foldl writeImportResult s) := by
  induction os with
  | nil => intro s h; exact h
  | cons r os ih =>
    intro s h
    rw [List.foldl_cons]
    exact ih _ (WF_write s r h)

theorem pairwise_filter_length (k : String × String × String) :
    ∀ (l : List StoreRow), l.Pairwise (fun a b => a.key ≠ b.key) →
      l.any (fun row => row.key == k) = true →
      (l.filter (fun row => row.key == k)).length = 1 := by
  intro l
  induction l with
  | nil => intro _ h; simp at h
  | cons row l ih =>
    intro hpw hany
    rw [List.pairwise_cons] at hpw
    obtain ⟨hhead, htail⟩ := hpw
    by_cases hk : (row.key == k) = true
    · rw [List.filter_cons, if_pos hk]
      have hnone : l.filter (fun row' => row'.key == k) = [] := by
        rw [List.filter_eq_nil_iff]
        intro b hb hbk
        exact hhead b hb ((eq_of_beq hk).trans (eq_of_beq hbk).symm)
      rw [hnone]
      rfl
    · rw [List.filter_cons, if_neg hk]
      rw [List.any_cons] at hany
      have hany' : l.any (fun row' => row'.key == k) = true := by
        simpa [hk] using hany
      exact ih htail hany'

theorem write_tableExists (s : Store) (r : ImportResult) :
    (writeImportResult s r).tableExists = s.tableExists := by
  unfold writeImportResult
  split <;> rfl

theorem foldl_tableExists (os : List ImportResult) :
    ∀ (s : Store),
      (os.foldl writeImportResult s).tableExists = s.tableExists := by
  induction os with
  | nil => intro s; rfl
  | cons r os ih =>
    intro s
    rw [List.foldl_cons, ih, write_tableExists]

theorem store_set_tableExists (t : Store) (h : t.tableExists = true) :
    ({ t with tableExists := true } : Store) = t := by
  cases t with
  | mk te rows ni =>
    simp only at h
    subst h
    rfl

/-- C2: the upsert is an idempotent latest-status write.  Persisting two
outcomes with the same `(owner, name, file_path)` key into a store
satisfying the UNIQUE constraint leaves exactly one row for that key,
and that row carries the second outcome's `success`, `error_message`
and `imported_at`; and running the whole pipeline a second time with
identical inputs and identical API responses returns the exact same
store (same rows, no duplicates, duplicate-freeness preserved). -/
theorem upsert_idempotent_rerun_converges (s : Store)
    (r1 r2 : ImportResult) (env : Env) (s0 : Store)
    (hkey : r1.key = r2.key) (hwf : WF s) (hwf0 : WF s0) :
    ((writeImportResult (writeImportResult s r1) r2).rows.filter
        (fun row => row.key == r2.key)).length = 1 ∧
    (∀ row ∈ (writeImportResult (writeImportResult s r1) r2).rows,
      row.key = r2.key →
        row.success = r2.success ∧
        row.errorMessage = some r2.error ∧
        row.importedAt = r2.importedAt) ∧
    (run env (run env s0).1).1 = (run env s0).1 ∧
    WF (run env s0).1 := by
  have hp1 : keyPresent (writeImportResult s r1) r2.key = true := by
    rw [← hkey]
    exact keyPresent_write_self s r1
  have hwf2 : WF (writeImportResult (writeImportResult s r1) r2) :=
    WF_write _ r2 (WF_write s r1 hwf)
  refine ⟨?_, ?_, ?_, ?_⟩
  · exact pairwise_filter_length r2.key _ hwf2
      (keyPresent_write_self (writeImportResult s r1) r2)
  · intro row hrow hk
    rw [writeImportResult_present _ r2 hp1] at hrow
    obtain ⟨row0, hrow0, heq⟩ := List.mem_map.mp hrow
    have hk0 : row0.key = r2.key := by
      rw [← updateRow_key r2 row0, heq, hk]
    have hupd : updateRow r2 row0 = setFields r2 row0 := by
      unfold updateRow
      rw [if_pos hk0]
    rw [← heq, hupd]
    exact ⟨rfl, rfl, rfl⟩
  · by_cases hdb : env.dbOk = false
    · simp [run, hdb]
    · by_cases htok : env.githubToken = "" ∨ env.snykToken = ""
      · simp [run, hdb, htok]
      · cases hre : env.repos with
        | error a => simp [run, hdb, htok, hre]
        | ok repos =>
          simp only [run, hdb, htok, hre, if_neg, if_false]
          simp [run, hdb, htok, hre]
          have ht : (List.foldl writeImportResult
              ({ s0 with tableExists := true })
              (pipelineOutcomes env repos)).tableExists = true := by
            rw [foldl_tableExists]
          rw [store_set_tableExists _ ht]
          exact fold_write_idem (pipelineOutcomes env repos) _
  · by_cases hdb : env.dbOk = false
    · simp only [run, hdb]
      simpa using hwf0
    · by_cases htok : env.githubToken = "" ∨ env.snykToken = ""
      · simp only [run]
        rw [if_neg hdb, if_pos htok]
        exact hwf0
      · cases hre : env.repos with
        | error a =>
          simp only [run]
          rw [if_neg hdb, if_neg htok, hre]
          exact hwf0
        | ok repos =>
          simp only [run]
          rw [if_neg hdb, if_neg htok, hre]
          exact WF_foldl (pipelineOutcomes env repos) _ hwf0

/-- Witness for C2: two outcomes for `(acme, api, go.mod)` leave one
row with the second outcome's fields, and rerunning the scenario
changes nothing. -/
theorem upsert_idempotent_rerun_converges_witness :
    ((writeImportResult (writeImportResult storeC10 resultFirst)
        resultNew).rows.filter
        (fun row => row.key == resultNew.key)).length = 1 ∧
    (∀ row ∈ (writeImportResult (writeImportResult storeC10 resultFirst)
        resultNew).rows,
      row.key = resultNew.key →
        row.success = resultNew.success ∧
        row.errorMessage = some resultNew.error ∧
        row.importedAt = resultNew.importedAt) ∧
    (run envScenario (run envScenario store0).1).1 =
      (run envScenario store0).1 ∧
    WF (run envScenario store0).1 :=
  upsert_idempotent_rerun_converges storeC10 resultFirst resultNew
    envScenario store0 rfl
    (by unfold WF; exact List.pairwise_singleton _ _)
    (by unfold WF; exact List.Pairwise.nil)

theorem pipeLoad_step {a b : PipeState} (h : PipeStep a b) :
    b.load = a.load := by
  cases h with
  | emit o rest l1 l2 st hp =>
    simp only [PipeState.load]
    rw [hp]
    simp only [List.flatten_append, List.flatten_cons,
      ← Multiset.coe_add, ← Multiset.cons_coe, Multiset.coe_nil,
      ← Multiset.singleton_add]
    abel
  | close st hall hnc => simp [PipeState.load]
  | consume o rest st hc hw =>
    simp only [PipeState.load]
    rw [hc]
    simp only [← Multiset.coe_add, ← Multiset.cons_coe, Multiset.coe_nil,
      ← Multiset.singleton_add]
    abel
  | writerExit st hcl hc hw => simp [PipeState.load]

theorem pipeInv_step {a b : PipeState} (h : PipeStep a b)
    (hinv : PipeInv a) : PipeInv b := by
  cases h with
  | emit o rest l1 l2 st hp =>
    constructor
    · intro hcl
      exfalso
      have hmem : (o :: rest) ∈ a.pending := by
        rw [hp]
        exact List.mem_append_right _ (List.mem_cons_self _ _)
      have := hinv.1 hcl (o :: rest) hmem
      simp at this
    · intro hw
      exfalso
      have hcl : a.closed = true := (hinv.2 hw).1
      have hmem : (o :: rest) ∈ a.pending := by
        rw [hp]
        exact List.mem_append_right _ (List.mem_cons_self _ _)
      have := hinv.1 hcl (o :: rest) hmem
      simp at this
  | close st hall hnc =>
    constructor
    · intro _
      exact hall
    · intro hw
      exact absurd ((hinv.2 hw).1) (by simp [hnc])
  | consume o rest st hc hw =>
    constructor
    · intro hcl
      exact hinv.1 hcl
    · intro hwd
      have hwd' : a.writerDone = true := hwd
      rw [hw] at hwd'
      exact absurd hwd' (by simp)
  | writerExit st hcl hchan hw =>
    constructor
    · intro _
      exact hinv.1 hcl
    · intro _
      exact ⟨hcl, hchan⟩

theorem pipeReach_load {a b : PipeState} (h : PipeReach a b) :
    b.load = a.load := by
  induction h with
  | refl => rfl
  | tail hab hbc ih => rw [pipeLoad_step hbc, ih]

theorem pipeReach_inv {a b : PipeState} (h : PipeReach a b)
    (ha : PipeInv a) : PipeInv b := by
  induction h with
  | refl => exact ha
  | tail hab hbc ih => exact pipeInv_step hbc ih

theorem pipeInit_inv (env : Env) (repos : List Repository) :
    PipeInv (pipeInit env repos) := by
  constructor
  · intro h
    simp [pipeInit] at h
  · intro h
    simp [pipeInit] at h

/-- C7: under any preemptive interleaving of the workers, the close and
the writer, when the run terminates (the writer goroutine has returned,
which is what `wgWriter.Wait()` observes last), the channel can only
have been closed after every worker finished, the channel is drained,
and the multiset of outcomes consumed by the Result Writer is exactly
the multiset of all outcomes emitted by all workers — no outcome is
dropped at shutdown. -/
theorem shutdown_drains_all_outcomes (env : Env)
    (repos : List Repository) (st : PipeState)
    (hreach : PipeReach (pipeInit env repos) st)
    (hdone : st.writerDone = true) :
    (st.consumed : Multiset ImportResult) =
      (pipelineOutcomes env repos : Multiset ImportResult) ∧
    st.chan = [] ∧ ∀ l ∈ st.pending, l = [] := by
  have hinv := pipeReach_inv hreach (pipeInit_inv env repos)
  obtain ⟨hcl, hch⟩ := hinv.2 hdone
  have hpend := hinv.1 hcl
  have hload := pipeReach_load hreach
  refine ⟨?_, hch, hpend⟩
  have hflat : st.pending.flatten = [] :=
    List.flatten_eq_nil_iff.mpr hpend
  unfold PipeState.load at hload
  rw [hch, hflat] at hload
  simp only [pipeInit, Multiset.coe_nil, add_zero, zero_add] at hload
  rw [hload]
  rfl

/-- Witness for C7: a complete four-step execution of the one-file run
(emit, close, consume, writer exit) consumes exactly the one emitted
outcome. -/
theorem shutdown_drains_all_outcomes_witness :
    (pipeFinal.consumed : Multiset ImportResult) =
      (pipelineOutcomes envPipe [repoAcme] : Multiset ImportResult) ∧
    pipeFinal.chan = [] ∧ ∀ l ∈ pipeFinal.pending, l = [] := by
  refine shutdown_drains_all_outcomes envPipe [repoAcme] pipeFinal ?_ rfl
  have e1 : PipeStep (pipeInit envPipe [repoAcme]) pipeS1 :=
    PipeStep.emit oPipe [] [] [] (pipeInit envPipe [repoAcme]) rfl
  have e2 : PipeStep pipeS1 pipeS2 :=
    PipeStep.close pipeS1 (by decide) rfl
  have e3 : PipeStep pipeS2 pipeS3 :=
    PipeStep.consume oPipe [] pipeS2 rfl rfl
  have e4 : PipeStep pipeS3 pipeFinal :=
    PipeStep.writerExit pipeS3 rfl rfl rfl
  exact PipeReach.tail
    (PipeReach.tail (PipeReach.tail (PipeReach.tail
      (PipeReach.refl _) e1) e2) e3) e4

end SnykImports
